import Mathlib

/-!
Verification development for `contract_decompile.py`: a one-shot batch tool
that decompiles wasm modules and then repairs the import names in the
decompiled text, cross-referencing a WAT disassembly and a naming table
built from a fetched JSON descriptor.

Python strings are modelled as `List Char`; the two regular expressions of
the source are modelled as explicit left-to-right scanners with the same
leftmost, non-overlapping, greedy semantics (the character classes are the
ASCII classes written literally in the patterns); `str.replace` is modelled
as a left-to-right non-overlapping substitution; fatal `SystemExit` aborts
are modelled with `Except` / error sums.
-/

deriving instance DecidableEq for Except

namespace ContractDecompile

/-- Text, modelling a Python `str` as its list of characters. -/
abbrev Str := List Char

/-- The characters of a Lean string literal. -/
def lit (x : String) : Str := x.data

/-- If literal `p` is a leading segment of `t`, return the remainder of `t`
after it (`none` otherwise). -/
def dropLit : Str → Str → Option Str
  | [], t => some t
  | _ :: _, [] => none
  | a :: p, c :: t => if a = c then dropLit p t else none

/-- `occursIn t p` models Python `p in t` (substring containment). -/
def occursIn : Str → Str → Bool
  | [], p => (dropLit p []).isSome
  | c :: cs, p => (dropLit p (c :: cs)).isSome || occursIn cs p

/-- Worker for `replaceAll`: scan left to right, replacing each
non-overlapping occurrence of `p` by `q`; `fuel` bounds the recursion and
is irrelevant as long as it is at least the length of the text. -/
def replGo (p q : Str) : Nat → Str → Str
  | 0, t => t
  | _ + 1, [] => []
  | fuel + 1, c :: cs =>
    match dropLit p (c :: cs) with
    | some rest => q ++ replGo p q fuel rest
    | none => c :: replGo p q fuel cs

/-- Models Python `t.replace(p, q)` for a non-empty pattern `p`. -/
def replaceAll (t p q : Str) : Str := replGo p q t.length t

/-- The ASCII class `[A-Za-z0-9_]` used by the decompiled-import pattern
(and by `\b` on the ASCII texts this tool processes). -/
def isWordChar (c : Char) : Bool :=
  decide ((97 ≤ c.toNat ∧ c.toNat ≤ 122) ∨ (65 ≤ c.toNat ∧ c.toNat ≤ 90) ∨
    (48 ≤ c.toNat ∧ c.toNat ≤ 57) ∨ c = '_')

/-- The regex whitespace class `\s` (ASCII part). -/
def isPySpace (c : Char) : Bool :=
  decide (c = ' ' ∨ c = '\t' ∨ c = '\n' ∨ c = '\r' ∨ c.toNat = 11 ∨ c.toNat = 12)

/-- The literal head of the decompiled-import pattern. -/
def litImportFunction : Str := ("import function").data

/-- The literal head of the WAT import pattern. -/
def litParenImport : Str := ("(import").data

/-- Attempt, at the current position, the tail of the pattern
`import function\s+([A-Za-z0-9_]+)\s*\(` from `extract_decomp_imports`
(source line 47); on success return the captured identifier and the text
after the match.  The greedy classes are disjoint from their successors,
so maximal munch coincides with the regex semantics. -/
def matchDecompAt (t : Str) : Option (Str × Str) :=
  match dropLit litImportFunction t with
  | none => none
  | some r1 =>
    if r1.takeWhile isPySpace = [] then none
    else
      let r2 := r1.dropWhile isPySpace
      let idt := r2.takeWhile isWordChar
      if idt = [] then none
      else
        match (r2.dropWhile isWordChar).dropWhile isPySpace with
        | '(' :: r5 => some (idt, r5)
        | _ => none

/-- `re.findall` scan for the decompiled-import pattern: try a match at
every position, left to right, resuming after the end of each match.
`prev` is the character before the current position, used for `\b`
(the following character of any match is `i`, a word character, so the
boundary holds exactly when `prev` is absent or not a word character). -/
def scanDecomp : Nat → Option Char → Str → List Str
  | 0, _, _ => []
  | _ + 1, _, [] => []
  | fuel + 1, prev, c :: cs =>
    if (match prev with | none => true | some p => !isWordChar p) then
      match matchDecompAt (c :: cs) with
      | some (idt, rest) => idt :: scanDecomp fuel (some '(') rest
      | none => scanDecomp fuel (some c) cs
    else scanDecomp fuel (some c) cs

/-- Models `extract_decomp_imports` (source lines 45-47):
`re.findall(r'\bimport function\s+([A-Za-z0-9_]+)\s*\(', text)`. -/
def extract_decomp_imports (t : Str) : List Str := scanDecomp t.length none t

/-- Attempt, at the current position, the pattern
`\(import\s+"([^"]+)"\s+"([^"]+)"` from `extract_wat_imports`
(source line 51); on success return the two captured strings and the
text after the match. -/
def matchWatAt (t : Str) : Option ((Str × Str) × Str) :=
  match dropLit litParenImport t with
  | none => none
  | some r1 =>
    if r1.takeWhile isPySpace = [] then none
    else
      match r1.dropWhile isPySpace with
      | '\"' :: r3 =>
        let s1 := r3.takeWhile (fun c => c ≠ '\"')
        if s1 = [] then none
        else
          match r3.dropWhile (fun c => c ≠ '\"') with
          | '\"' :: r5 =>
            if r5.takeWhile isPySpace = [] then none
            else
              match r5.dropWhile isPySpace with
              | '\"' :: r7 =>
                let s2 := r7.takeWhile (fun c => c ≠ '\"')
                if s2 = [] then none
                else
                  match r7.dropWhile (fun c => c ≠ '\"') with
                  | '\"' :: r9 => some ((s1, s2), r9)
                  | _ => none
              | _ => none
          | _ => none
      | _ => none

/-- `re.findall` scan for the WAT import pattern. -/
def scanWat : Nat → Str → List (Str × Str)
  | 0, _ => []
  | _ + 1, [] => []
  | fuel + 1, c :: cs =>
    match matchWatAt (c :: cs) with
    | some (pr, rest) => pr :: scanWat fuel rest
    | none => scanWat fuel cs

/-- Models `extract_wat_imports` (source lines 49-51):
`re.findall(r'\(import\s+"([^"]+)"\s+"([^"]+)"', text)`. -/
def extract_wat_imports (t : Str) : List (Str × Str) := scanWat t.length t

/-- The substitution pattern of source lines 74-75: `f" {name}("`. -/
def callPat (x : Str) : Str := ' ' :: (x ++ ['('])

/-- A function entry of the naming descriptor: optional export alias and
optional canonical name (`fn.get("export")`, `fn.get("name")`). -/
structure FnEntry where
  exportAlias : Option Str
  fnName : Option Str
deriving DecidableEq

/-- A module entry of the naming descriptor. -/
structure ModEntry where
  exportAlias : Option Str
  functions : List FnEntry
deriving DecidableEq

/-- The naming descriptor (the fetched `env.json` document). -/
structure Env where
  modules : List ModEntry
deriving DecidableEq

/-- The naming table.  Python dict lookup with last-write-wins updates is
modelled by prepending on insert and taking the first hit on lookup. -/
abbrev NameMap := List (Str × Str)

/-- Association lookup (first hit wins, so the most recent insert wins). -/
def mapLookup : NameMap → Str → Option Str
  | [], _ => none
  | (k', v) :: rest, k => if k' = k then some v else mapLookup rest k

/-- The fatal message of `build_map` (source line 32). -/
def missMsg : String := "function entry missing export or name"

/-- The inner loop of `build_map` (source lines 28-34): add each function
entry of a module whose export alias is `modExp`, failing fatally when an
entry lacks its export alias or its canonical name. -/
def addFunctions (modExp : Str) : NameMap → List FnEntry → Except String NameMap
  | m, [] => .ok m
  | m, fn :: rest =>
    match fn.exportAlias, fn.fnName with
    | some fe, some nm => addFunctions modExp ((modExp ++ fe, nm) :: m) rest
    | _, _ => .error missMsg

/-- The outer loop of `build_map` (source lines 25-34): `if not mod_exp:
continue` skips a module whose export alias is absent or empty. -/
def buildModules : NameMap → List ModEntry → Except String NameMap
  | m, [] => .ok m
  | m, mod :: rest =>
    match mod.exportAlias with
    | none => buildModules m rest
    | some me =>
      if me = [] then buildModules m rest
      else
        match addFunctions me m mod.functions with
        | .ok m' => buildModules m' rest
        | .error e => .error e

/-- Models `build_map` (source lines 23-35). -/
def build_map (env : Env) : Except String NameMap := buildModules [] env.modules

/-- The fatal conditions of `process_pairs` (source lines 57-79), carrying
exactly the data named in each message. -/
inductive PErr where
  | missingWat (name : Str)
  | countMismatch (name : Str) (decompCount watCount : Nat)
  | mappingNotFound (key : Str) (name : Str)
  | patternNotFound (orig : Str) (name : Str)
deriving DecidableEq

/-- The per-pair loop of `process_pairs` (source lines 68-80): for each
(decompiled identifier, (module alias, field alias)) pair, look the
concatenated key up, require `" orig("` to occur, and substitute. -/
def goPairs (m : NameMap) (name : Str) : List (Str × Str × Str) → Str → Except PErr Str
  | [], t => .ok t
  | (orig, m1, m2) :: rest, t =>
    match mapLookup m (m1 ++ m2) with
    | none => .error (.mappingNotFound (m1 ++ m2) name)
    | some new =>
      if occursIn t (callPat orig) then
        goPairs m name rest (replaceAll t (callPat orig) (callPat new))
      else .error (.patternNotFound orig name)

/-- The per-file body of `process_pairs` (source lines 60-80): extract
both import lists, require equal lengths, then run the pair loop.  `.ok`
carries the fully substituted text; `.error` models `SystemExit`. -/
def processFile (m : NameMap) (name decompText watText : Str) : Except PErr Str :=
  if (extract_decomp_imports decompText).length = (extract_wat_imports watText).length then
    goPairs m name ((extract_decomp_imports decompText).zip (extract_wat_imports watText)) decompText
  else
    .error (.countMismatch name (extract_decomp_imports decompText).length
      (extract_wat_imports watText).length)

/-- The on-disk effect of `process_pairs` on one file (source lines 60-83):
`write_text` runs only after every pair succeeded, so on a fatal error the
file keeps its pre-reconciliation content.  Returns the file's content on
disk afterwards and the fatal error, if any. -/
def process_one_file (m : NameMap) (name disk wat : Str) : Str × Option PErr :=
  match processFile m name disk wat with
  | .ok t => (t, none)
  | .error e => (disk, some e)

/-- A fatal condition of the whole run. -/
inductive MainErr where
  | configError (msg : String)
  | fileError (e : PErr)
deriving DecidableEq

/-- Final disk state of reconciliation over a batch of files, each given as
(base name, decompiled content, optional WAT content).  Files processed
before a fatal error hold their rewritten text; the failing file and all
later ones keep the decompiled text the batch decompiler wrote. -/
def runFiles (m : NameMap) : List (Str × Str × Option Str) → List (Str × Str) × Option MainErr
  | [] => ([], none)
  | (n, d, w?) :: rest =>
    match w? with
    | none => ((n, d) :: rest.map (fun i => (i.1, i.2.1)), some (.fileError (.missingWat n)))
    | some w =>
      match processFile m n d w with
      | .error e => ((n, d) :: rest.map (fun i => (i.1, i.2.1)), some (.fileError e))
      | .ok d' =>
        let r := runFiles m rest
        ((n, d') :: r.1, r.2)

/-- Models `main` (source lines 85-95) at the level of the final disk
state: the naming table is built before the batch decompiler runs, so a
`build_map` failure terminates the run with no output file produced.
`inputs` lists, per binary module, the text the external decompiler would
emit and the optional companion WAT text. -/
def mainModel (env : Env) (inputs : List (Str × Str × Option Str)) :
    List (Str × Str) × Option MainErr :=
  match build_map env with
  | .error msg => ([], some (.configError msg))
  | .ok m => runFiles m inputs

/-- Models the URL normalization in `fetch_json` (source lines 17-19); the
actual network fetch is an external collaborator applied to this result. -/
def fetch_json_url (url : Str) : Str :=
  if occursIn url (lit "github.com") && occursIn url (lit "/blob/") then
    replaceAll (replaceAll url (lit "https://github.com") (lit "https://raw.githubusercontent.com"))
      (lit "/blob/") (lit "/")
  else url

/-- The naming descriptor of the spec's concrete scenario:
`{"modules":[{"export":"v","functions":[{"export":"1","name":"read_contract_data"}]}]}`. -/
def scenarioEnv : Env :=
  ⟨[⟨some (lit "v"), [⟨some (lit "1"), some (lit "read_contract_data")⟩]⟩]⟩

/-- The naming table the scenario descriptor builds. -/
def scenarioMap : NameMap := [(lit "v1", lit "read_contract_data")]

/-- The scenario's decompiled text. -/
def scenarioDecomp : Str := lit "import function l_1(a:long):long;"

/-- The scenario's reference disassembly text. -/
def scenarioWat : Str := lit "(import \"v\" \"1\" (func (;0;) (type 0)))"

/-- The scenario's decompiled text after reconciliation. -/
def scenarioRenamed : Str := lit "import function read_contract_data(a:long):long;"

/-- A three-import decompiled text used to exercise the general
reconciliation statement. -/
def d3 : Str := lit "import function aa(x:int); import function bb(y:int); import function cc(z:int);"

/-- A matching three-import WAT text. -/
def w3 : Str := lit "(import \"m\" \"1\" (func)) (import \"m\" \"2\" (func)) (import \"m\" \"3\" (func))"

/-- A naming table covering the three keys of `w3`. -/
def m3 : NameMap := [(lit "m1", lit "alpha"), (lit "m2", lit "beta"), (lit "m3", lit "gamma")]

/-- A WAT text with two imports (one more than `scenarioDecomp` has). -/
def w2 : Str := lit "(import \"v\" \"1\" (func)) (import \"v\" \"2\" (func))"

/-- A two-import decompiled text whose second key is missing from `mC3`. -/
def dC3 : Str := lit "import function aa(x); import function bb(y);"

/-- WAT text pairing `dC3`'s imports with keys `m1` and `z9`. -/
def wC3 : Str := lit "(import \"m\" \"1\" (f)) (import \"z\" \"9\" (f))"

/-- A naming table containing `m1` but not `z9`. -/
def mC3 : NameMap := [(lit "m1", lit "alpha")]

/-- A decompiled text in which the same import identifier occurs at two
positions of the import list. -/
def d9 : Str := lit "import function dup(a:int):int; import function dup(b:int):int;"

/-- WAT text giving the two `dup` imports distinct keys. -/
def w9 : Str := lit "(import \"m\" \"1\" (f)) (import \"m\" \"2\" (f))"

/-- A naming table covering both keys of `w9`, renaming the first. -/
def m9 : NameMap := [(lit "m1", lit "first_name"), (lit "m2", lit "second_name")]

/-- A descriptor whose only function entry lacks its canonical name. -/
def envC6 : Env := ⟨[⟨some (lit "v"), [⟨some (lit "1"), none⟩]⟩]⟩

/-! ### Lemmas about the text primitives -/

theorem dropLit_eq_some : ∀ (p t r : Str), dropLit p t = some r ↔ t = p ++ r
  | [], t, r => by simp [dropLit]
  | a :: p, [], r => by simp [dropLit]
  | a :: p, c :: t, r => by
    simp only [dropLit, List.cons_append]
    by_cases h : a = c
    · subst h
      rw [if_pos rfl, dropLit_eq_some p t r]
      simp
    · rw [if_neg h]
      constructor
      · intro hc; cases hc
      · intro hc
        injection hc with h1 _
        exact absurd h1.symm h

theorem dropLit_self_append (p r : Str) : dropLit p (p ++ r) = some r :=
  (dropLit_eq_some p (p ++ r) r).mpr rfl

theorem occursIn_iff (p : Str) : ∀ t : Str, occursIn t p = true ↔ ∃ u v, t = u ++ (p ++ v)
  | [] => by
    constructor
    · intro h
      cases p with
      | nil => exact ⟨[], [], rfl⟩
      | cons a p' => simp [occursIn, dropLit] at h
    · rintro ⟨u, v, huv⟩
      have h1 := List.append_eq_nil.mp huv.symm
      have h2 := List.append_eq_nil.mp h1.2
      rw [h2.1]
      decide
  | c :: cs => by
    simp only [occursIn, Bool.or_eq_true]
    constructor
    · rintro (h | h)
      · obtain ⟨r, hr⟩ := Option.isSome_iff_exists.mp h
        exact ⟨[], r, by simpa using (dropLit_eq_some p (c :: cs) r).mp hr⟩
      · obtain ⟨u, v, huv⟩ := (occursIn_iff p cs).mp h
        exact ⟨c :: u, v, by simp [huv]⟩
    · rintro ⟨u, v, huv⟩
      cases u with
      | nil =>
        left
        rw [Option.isSome_iff_exists]
        exact ⟨v, (dropLit_eq_some p (c :: cs) v).mpr (by simpa using huv)⟩
      | cons u0 u' =>
        right
        simp only [List.cons_append, List.cons.injEq] at huv
        exact (occursIn_iff p cs).mpr ⟨u', v, huv.2⟩

theorem occursIn_eq_false (p t : Str) (h : ∀ u v, t ≠ u ++ (p ++ v)) :
    occursIn t p = false := by
  cases hoc : occursIn t p with
  | false => rfl
  | true =>
    obtain ⟨u, v, huv⟩ := (occursIn_iff p t).mp hoc
    exact absurd huv (h u v)

theorem replGo_self (p : Str) : ∀ (fuel : Nat) (t : Str), replGo p p fuel t = t
  | 0, _ => rfl
  | _ + 1, [] => rfl
  | fuel + 1, c :: cs => by
    simp only [replGo]
    cases hd : dropLit p (c :: cs) with
    | none => rw [replGo_self p fuel cs]
    | some rest =>
      show p ++ replGo p p fuel rest = c :: cs
      rw [replGo_self p fuel rest]
      exact ((dropLit_eq_some p (c :: cs) rest).mp hd).symm

theorem replaceAll_self (t p : Str) : replaceAll t p p = t := replGo_self p t.length t

theorem replGo_pull (p qt : Str) (h : Char) :
    ∀ (fuel : Nat) (cs u r : Str), h ∉ u → replGo p (h :: qt) fuel cs = u ++ r →
      ∃ r', cs = u ++ r'
  | 0, _, _, r, _, heq => ⟨r, heq⟩
  | _ + 1, [], u, r, _, heq => by
    have hnil : u = [] := (List.append_eq_nil.mp (by simpa [replGo] using heq.symm)).1
    exact ⟨[], by simp [hnil]⟩
  | fuel + 1, c :: cs, u, r, hu, heq => by
    simp only [replGo] at heq
    cases hd : dropLit p (c :: cs) with
    | some rest =>
      rw [hd] at heq
      cases u with
      | nil => exact ⟨c :: cs, rfl⟩
      | cons u0 u' =>
        exfalso
        simp only [List.cons_append, List.cons.injEq] at heq
        exact hu (by rw [heq.1]; exact List.mem_cons_self _ _)
    | none =>
      rw [hd] at heq
      cases u with
      | nil => exact ⟨c :: cs, rfl⟩
      | cons u0 u' =>
        simp only [List.cons_append, List.cons.injEq] at heq
        obtain ⟨r', hr'⟩ :=
          replGo_pull p qt h fuel cs u' r (fun hm => hu (List.mem_cons_of_mem _ hm)) heq.2
        exact ⟨r', by rw [List.cons_append, ← heq.1, hr']⟩

theorem replGo_no_occ (h : Char) (pt qt : Str)
    (hpt : h ∉ pt) (hqt : h ∉ qt)
    (hne1 : ∀ r, qt ≠ pt ++ r) (hne2 : ∀ r, pt ≠ qt ++ r) :
    ∀ (fuel : Nat) (t : Str), t.length ≤ fuel →
      occursIn (replGo (h :: pt) (h :: qt) fuel t) (h :: pt) = false := by
  intro fuel
  induction fuel with
  | zero =>
    intro t ht
    have hnil : t = [] := List.length_eq_zero.mp (Nat.le_zero.mp ht)
    subst hnil
    rfl
  | succ fuel ih =>
    intro t ht
    cases t with
    | nil => rfl
    | cons c cs =>
      simp only [replGo]
      cases hd : dropLit (h :: pt) (c :: cs) with
      | some rest =>
        have hsplit := (dropLit_eq_some _ _ _).mp hd
        have hlenr : rest.length ≤ fuel := by
          have hl := congrArg List.length hsplit
          simp only [List.length_cons, List.length_append] at hl
          simp only [List.length_cons] at ht
          omega
        have hR := ih rest hlenr
        apply occursIn_eq_false
        intro u v huv
        rcases List.append_eq_append_iff.mp huv with ⟨a', _, hR'⟩ | ⟨c', hx, hv⟩
        · have htrue := (occursIn_iff (h :: pt) _).mpr ⟨a', v, hR'⟩
          rw [htrue] at hR
          cases hR
        · cases c' with
          | nil =>
            simp only [List.nil_append] at hv
            have htrue := (occursIn_iff (h :: pt)
                (replGo (h :: pt) (h :: qt) fuel rest)).mpr ⟨[], v, by simpa using hv.symm⟩
            rw [htrue] at hR
            cases hR
          | cons e c'' =>
            simp only [List.cons_append, List.cons.injEq] at hv
            cases u with
            | nil =>
              simp only [List.nil_append, List.cons.injEq] at hx
              rw [← hx.2] at hv
              rcases List.append_eq_append_iff.mp hv.2 with ⟨a2, hq2, _⟩ | ⟨c2, hp2, _⟩
              · exact hne1 a2 hq2
              · exact hne2 c2 hp2
            | cons u0 u' =>
              simp only [List.cons_append, List.cons.injEq] at hx
              apply hqt
              rw [hx.2]
              exact List.mem_append_right _ (by rw [hv.1]; exact List.mem_cons_self _ _)
      | none =>
        have hlenc : cs.length ≤ fuel := by
          simp only [List.length_cons] at ht
          omega
        have hR := ih cs hlenc
        show occursIn (c :: replGo (h :: pt) (h :: qt) fuel cs) (h :: pt) = false
        simp only [occursIn, Bool.or_eq_false_iff]
        refine ⟨?_, hR⟩
        cases hdd : dropLit (h :: pt) (c :: replGo (h :: pt) (h :: qt) fuel cs) with
        | none => rfl
        | some r =>
          exfalso
          have hsplit := (dropLit_eq_some _ _ _).mp hdd
          simp only [List.cons_append, List.cons.injEq] at hsplit
          obtain ⟨r', hr'⟩ := replGo_pull (h :: pt) qt h fuel cs pt r hpt hsplit.2
          have : dropLit (h :: pt) (c :: cs) = some r' := by
            rw [hsplit.1, hr']
            exact dropLit_self_append (h :: pt) r'
          rw [this] at hd
          cases hd

theorem replaceAll_no_occ (h : Char) (pt qt : Str)
    (hpt : h ∉ pt) (hqt : h ∉ qt)
    (hne1 : ∀ r, qt ≠ pt ++ r) (hne2 : ∀ r, pt ≠ qt ++ r) (t : Str) :
    occursIn (replaceAll t (h :: pt) (h :: qt)) (h :: pt) = false :=
  replGo_no_occ h pt qt hpt hqt hne1 hne2 t.length t (Nat.le_refl _)

theorem space_notMem_callTail (x : Str) (hx : ' ' ∉ x) : ' ' ∉ x ++ ['('] := by
  intro hm
  rcases List.mem_append.mp hm with hm' | hm'
  · exact hx hm'
  · exact absurd (List.mem_singleton.mp hm') (by decide)

theorem callTail_ne_append (a b : Str) (ha : '(' ∉ a) (hab : a ≠ b) :
    ∀ r, a ++ ['('] ≠ (b ++ ['(']) ++ r := by
  intro r heq
  rw [List.append_assoc] at heq
  rcases List.append_eq_append_iff.mp heq with ⟨a', hba, h1⟩ | ⟨c', hav, h2⟩
  · cases a' with
    | nil =>
      simp only [List.append_nil] at hba
      exact hab hba.symm
    | cons y ys =>
      simp only [List.singleton_append, List.cons_append, List.cons.injEq] at h1
      exact absurd h1.2.symm (by simp)
  · cases c' with
    | nil =>
      simp only [List.append_nil] at hav
      exact hab hav
    | cons e c'' =>
      simp only [List.singleton_append, List.cons_append, List.cons.injEq] at h2
      apply ha
      rw [hav, ← h2.1]
      exact List.mem_append_right _ (List.mem_cons_self _ _)

/-- Substituting `" x("` by `" n("` for a different paren-free, space-free
name `n` leaves no occurrence of `" x("` behind: nothing inside the
replacement, at its boundaries, or at a skipped position can recreate the
pattern. -/
theorem replaceAll_callPat_no_occ (x n : Str)
    (hx : ' ' ∉ x) (hxp : '(' ∉ x) (hn : ' ' ∉ n) (hnp : '(' ∉ n) (hne : n ≠ x) (t : Str) :
    occursIn (replaceAll t (callPat x) (callPat n)) (callPat x) = false :=
  replaceAll_no_occ ' ' (x ++ ['(']) (n ++ ['('])
    (space_notMem_callTail x hx) (space_notMem_callTail n hn)
    (callTail_ne_append n x hnp hne) (callTail_ne_append x n hxp (fun hc => hne hc.symm)) t

/-! ### Lemmas about the pair loop and the table builder -/

theorem goPairs_ok_append (m : NameMap) (name : Str) :
    ∀ (l1 l2 : List (Str × Str × Str)) (t t' : Str),
      goPairs m name l1 t = .ok t' →
      goPairs m name (l1 ++ l2) t = goPairs m name l2 t'
  | [], l2, t, t', hok => by
    simp only [goPairs] at hok
    injection hok with h
    rw [List.nil_append, h]
  | (o, a, b) :: l1', l2, t, t', hok => by
    simp only [goPairs, List.cons_append] at hok ⊢
    cases hL : mapLookup m (a ++ b) with
    | none => rw [hL] at hok; dsimp only at hok; cases hok
    | some n =>
      rw [hL] at hok
      dsimp only at hok ⊢
      by_cases hocc : occursIn t (callPat o) = true
      · rw [if_pos hocc] at hok ⊢
        exact goPairs_ok_append m name l1' l2 _ t' hok
      · rw [if_neg hocc] at hok; cases hok

theorem goPairs_self_ok (m : NameMap) (name : Str) :
    ∀ (pairs : List (Str × Str × Str)) (t : Str),
      (∀ pr ∈ pairs, mapLookup m (pr.2.1 ++ pr.2.2) = some pr.1 ∧
        occursIn t (callPat pr.1) = true) →
      goPairs m name pairs t = .ok t
  | [], _, _ => rfl
  | (o, a, b) :: rest, t, h => by
    have h0 := h (o, a, b) (List.mem_cons_self _ _)
    simp only [goPairs, h0.1, if_pos h0.2, replaceAll_self]
    exact goPairs_self_ok m name rest t (fun pr hpr => h pr (List.mem_cons_of_mem _ hpr))

theorem buildModules_skip_none (mod : ModEntry) (h : mod.exportAlias = none) :
    ∀ (ms1 ms2 : List ModEntry) (acc : NameMap),
      buildModules acc (ms1 ++ mod :: ms2) = buildModules acc (ms1 ++ ms2)
  | [], ms2, acc => by simp only [List.nil_append, buildModules, h]
  | m' :: ms1', ms2, acc => by
    simp only [List.cons_append, buildModules]
    cases hm : m'.exportAlias with
    | none => exact buildModules_skip_none mod h ms1' ms2 acc
    | some me =>
      dsimp only
      by_cases hme : me = []
      · rw [if_pos hme, if_pos hme]
        exact buildModules_skip_none mod h ms1' ms2 acc
      · rw [if_neg hme, if_neg hme]
        cases addFunctions me acc m'.functions with
        | ok acc' => exact buildModules_skip_none mod h ms1' ms2 acc'
        | error e => rfl

theorem addFunctions_err_of_mem (modExp : Str) :
    ∀ (fns : List FnEntry) (acc : NameMap) (fn : FnEntry), fn ∈ fns →
      (fn.exportAlias = none ∨ fn.fnName = none) →
      addFunctions modExp acc fns = .error missMsg
  | [], _, _, hmem, _ => absurd hmem (List.not_mem_nil _)
  | f :: rest, acc, fn, hmem, hbad => by
    cases hfe : f.exportAlias with
    | none => simp only [addFunctions, hfe]
    | some fe =>
      cases hfn : f.fnName with
      | none => simp only [addFunctions, hfe, hfn]
      | some nm =>
        simp only [addFunctions, hfe, hfn]
        rcases List.mem_cons.mp hmem with heq | hmem'
        · exfalso
          subst heq
          rcases hbad with hb | hb
          · rw [hb] at hfe; cases hfe
          · rw [hb] at hfn; cases hfn
        · exact addFunctions_err_of_mem modExp rest _ fn hmem' hbad

theorem addFunctions_err_msg (modExp : Str) :
    ∀ (fns : List FnEntry) (acc : NameMap) (e : String),
      addFunctions modExp acc fns = .error e → e = missMsg
  | [], _, _, h => by cases h
  | f :: rest, acc, e, h => by
    cases hfe : f.exportAlias with
    | none => simp only [addFunctions, hfe] at h; injection h with h'; exact h'.symm
    | some fe =>
      cases hfn : f.fnName with
      | none => simp only [addFunctions, hfe, hfn] at h; injection h with h'; exact h'.symm
      | some nm =>
        simp only [addFunctions, hfe, hfn] at h
        exact addFunctions_err_msg modExp rest _ e h

theorem buildModules_err_of_mem :
    ∀ (ms : List ModEntry) (acc : NameMap) (mod : ModEntry) (me : Str) (fn : FnEntry),
      mod ∈ ms → mod.exportAlias = some me → me ≠ [] → fn ∈ mod.functions →
      (fn.exportAlias = none ∨ fn.fnName = none) →
      buildModules acc ms = .error missMsg
  | [], _, _, _, _, hmem, _, _, _, _ => absurd hmem (List.not_mem_nil _)
  | m' :: rest, acc, mod, me, fn, hmem, hma, hme, hfmem, hbad => by
    rcases List.mem_cons.mp hmem with heq | hmem'
    · subst heq
      simp only [buildModules, hma, if_neg hme,
        addFunctions_err_of_mem me mod.functions acc fn hfmem hbad]
    · simp only [buildModules]
      cases hm : m'.exportAlias with
      | none => exact buildModules_err_of_mem rest acc mod me fn hmem' hma hme hfmem hbad
      | some me' =>
        dsimp only
        by_cases hme' : me' = []
        · rw [if_pos hme']
          exact buildModules_err_of_mem rest acc mod me fn hmem' hma hme hfmem hbad
        · rw [if_neg hme']
          cases haf : addFunctions me' acc m'.functions with
          | ok acc' => exact buildModules_err_of_mem rest acc' mod me fn hmem' hma hme hfmem hbad
          | error e => rw [addFunctions_err_msg me' m'.functions acc e haf]

/-! ### The claims -/

/-- Claim C1: end-to-end reconciliation.  First, on the spec's concrete
scenario: the descriptor builds the table mapping `v1` to
`read_contract_data`, and the decompiled file containing
`import function l_1(a:long):long;` is rewritten so the import identifier
becomes `read_contract_data(`.  Second, generally: for a decompiled output
with import identifiers `[a, b, c]`, a reference disassembly with matching
pairs in the same order, and a naming table covering all three keys,
reconciliation succeeds and the result is exactly the three successive
literal substitutions `" a(" ↦ " na("`, `" b(" ↦ " nb("`, `" c(" ↦ " nc("`
applied to the original text, so no other text is altered. -/
theorem claim1_reconciliation :
    (build_map scenarioEnv = .ok scenarioMap ∧
      processFile scenarioMap (lit "contract") scenarioDecomp scenarioWat = .ok scenarioRenamed) ∧
    (∀ (m : NameMap) (name d w a b c a1 b1 a2 b2 a3 b3 na nb nc : Str),
      extract_decomp_imports d = [a, b, c] →
      extract_wat_imports w = [(a1, b1), (a2, b2), (a3, b3)] →
      mapLookup m (a1 ++ b1) = some na →
      mapLookup m (a2 ++ b2) = some nb →
      mapLookup m (a3 ++ b3) = some nc →
      occursIn d (callPat a) = true →
      occursIn (replaceAll d (callPat a) (callPat na)) (callPat b) = true →
      occursIn (replaceAll (replaceAll d (callPat a) (callPat na)) (callPat b) (callPat nb))
        (callPat c) = true →
      processFile m name d w = .ok
        (replaceAll (replaceAll (replaceAll d (callPat a) (callPat na))
          (callPat b) (callPat nb)) (callPat c) (callPat nc))) := by
  constructor
  · exact ⟨by decide, by decide⟩
  · intro m name d w a b c a1 b1 a2 b2 a3 b3 na nb nc hd hw h1 h2 h3 ha hb hc
    unfold processFile
    rw [hd, hw]
    have hlen : ([a, b, c] : List Str).length = [(a1, b1), (a2, b2), (a3, b3)].length := rfl
    rw [if_pos hlen]
    simp only [List.zip_cons_cons, List.zip_nil_left]
    simp [goPairs, h1, h2, h3, ha, hb, hc]

/-- Witness for C1: the general statement applied to a concrete
three-import file. -/
theorem claim1_witness :
    processFile m3 (lit "c") d3 w3 =
      .ok (replaceAll (replaceAll (replaceAll d3 (callPat (lit "aa")) (callPat (lit "alpha")))
        (callPat (lit "bb")) (callPat (lit "beta"))) (callPat (lit "cc")) (callPat (lit "gamma"))) :=
  claim1_reconciliation.2 m3 (lit "c") d3 w3 (lit "aa") (lit "bb") (lit "cc")
    (lit "m") (lit "1") (lit "m") (lit "2") (lit "m") (lit "3")
    (lit "alpha") (lit "beta") (lit "gamma") (by decide) (by decide) (by decide) (by decide)
    (by decide) (by decide) (by decide) (by decide)

/-- Claim C2: when the two extracted import lists have different lengths,
the reconciler fails fatally with the count-mismatch error carrying the
file name and both counts, and the file on disk keeps its content. -/
theorem claim2_count_mismatch (m : NameMap) (name d w : Str)
    (h : (extract_decomp_imports d).length ≠ (extract_wat_imports w).length) :
    process_one_file m name d w =
      (d, some (.countMismatch name (extract_decomp_imports d).length
        (extract_wat_imports w).length)) := by
  unfold process_one_file processFile
  rw [if_neg h]

/-- Witness for C2: one decompiled import against two WAT imports. -/
theorem claim2_witness :
    process_one_file scenarioMap (lit "c") scenarioDecomp w2 =
      (scenarioDecomp, some (.countMismatch (lit "c") 1 2)) :=
  claim2_count_mismatch scenarioMap (lit "c") scenarioDecomp w2 (by decide)

/-- Claim C3: when some positional pair's concatenated key is absent from
the naming table, the reconciler fails fatally with the key and the file
name, and the file on disk keeps its pre-reconciliation content — no
matter how many earlier pairs had already been substituted in memory
(`before` is an arbitrary prefix of pairs that succeeded, taking the
in-memory text to `t'`). -/
theorem claim3_missing_key (m : NameMap) (name d w t' orig m1 m2 : Str)
    (before after : List (Str × Str × Str))
    (hlen : (extract_decomp_imports d).length = (extract_wat_imports w).length)
    (hzip : (extract_decomp_imports d).zip (extract_wat_imports w)
      = before ++ (orig, m1, m2) :: after)
    (hbefore : goPairs m name before d = .ok t')
    (hmiss : mapLookup m (m1 ++ m2) = none) :
    process_one_file m name d w = (d, some (.mappingNotFound (m1 ++ m2) name)) := by
  have hpf : processFile m name d w = .error (.mappingNotFound (m1 ++ m2) name) := by
    unfold processFile
    rw [if_pos hlen, hzip, goPairs_ok_append m name before ((orig, m1, m2) :: after) d t' hbefore]
    simp [goPairs, hmiss]
  unfold process_one_file
  rw [hpf]

/-- Witness for C3: the second pair's key `z9` is missing after the first
pair was already substituted in memory. -/
theorem claim3_witness :
    process_one_file mC3 (lit "c") dC3 wC3 = (dC3, some (.mappingNotFound (lit "z9") (lit "c"))) :=
  claim3_missing_key mC3 (lit "c") dC3 wC3
    (lit "import function alpha(x); import function bb(y);")
    (lit "bb") (lit "z") (lit "9") [(lit "aa", lit "m", lit "1")] []
    (by decide) (by decide) (by decide) (by decide)

/-- Counterexample to claim C4: on the spec's own scenario, a second run
of the reconciler on the already-renamed file does NOT fail — it succeeds
and leaves the text unchanged.  The second run extracts the current
(renamed) identifier `read_contract_data`, finds key `v1` mapped to that
same name, and the required substring `" read_contract_data("` is present,
so the claimed fatal failure never happens. -/
theorem claim4_counterexample :
    processFile scenarioMap (lit "contract") scenarioDecomp scenarioWat = .ok scenarioRenamed ∧
    processFile scenarioMap (lit "contract") scenarioRenamed scenarioWat = .ok scenarioRenamed :=
  ⟨by decide, by decide⟩

/-- Amended claim C4: a second run over an already-renamed file succeeds
as a no-op whenever each extracted identifier of the renamed text maps to
itself in the naming table and occurs as `" name("` — which is exactly the
state a successful first run leaves behind when the canonical names are
identifier-shaped.  Reconciliation is then idempotent; it is not the case
that a second run fails because the original identifiers are gone, since
the second run re-extracts the current identifiers. -/
theorem claim4_amended_second_run (m : NameMap) (name t w : Str)
    (hlen : (extract_decomp_imports t).length = (extract_wat_imports w).length)
    (hall : ∀ pr ∈ (extract_decomp_imports t).zip (extract_wat_imports w),
      mapLookup m (pr.2.1 ++ pr.2.2) = some pr.1 ∧ occursIn t (callPat pr.1) = true) :
    processFile m name t w = .ok t := by
  unfold processFile
  rw [if_pos hlen]
  exact goPairs_self_ok m name _ t hall

/-- Witness for the amended C4: the scenario's renamed file reconciles to
itself. -/
theorem claim4_witness :
    processFile scenarioMap (lit "contract") scenarioRenamed scenarioWat = .ok scenarioRenamed :=
  claim4_amended_second_run scenarioMap (lit "contract") scenarioRenamed scenarioWat
    (by decide) (by decide)

/-- Claim C5: a module entry without an export alias contributes nothing
to the naming table: building the table with the entry equals building it
with the entry removed, whatever its function entries look like — so its
functions are never examined and can never trigger the fatal
missing-alias error. -/
theorem claim5_module_without_alias (ms1 ms2 : List ModEntry) (mod : ModEntry)
    (h : mod.exportAlias = none) :
    build_map ⟨ms1 ++ mod :: ms2⟩ = build_map ⟨ms1 ++ ms2⟩ :=
  buildModules_skip_none mod h ms1 ms2 []

/-- Witness for C5: an alias-less module with malformed function entries
is skipped without error. -/
theorem claim5_witness :
    build_map ⟨[⟨none, [⟨none, none⟩]⟩, ⟨some (lit "v"), [⟨some (lit "1"), some (lit "n")⟩]⟩]⟩
      = build_map ⟨[⟨some (lit "v"), [⟨some (lit "1"), some (lit "n")⟩]⟩]⟩ :=
  claim5_module_without_alias [] [⟨some (lit "v"), [⟨some (lit "1"), some (lit "n")⟩]⟩]
    ⟨none, [⟨none, none⟩]⟩ rfl

/-- Claim C6: a function entry missing either alias, inside a module with
a non-empty export alias, makes table construction fail with the fatal
configuration message; since `main` builds the table before invoking the
batch decompiler, the whole run aborts with no decompiled output file
produced (empty disk in the pipeline model, for every input batch). -/
theorem claim6_bad_function_entry (env : Env) (mod : ModEntry) (fn : FnEntry) (me : Str)
    (hm : mod ∈ env.modules) (ha : mod.exportAlias = some me) (hne : me ≠ [])
    (hf : fn ∈ mod.functions) (hbad : fn.exportAlias = none ∨ fn.fnName = none) :
    build_map env = .error missMsg ∧
    ∀ inputs, mainModel env inputs = ([], some (.configError missMsg)) := by
  have h1 : build_map env = .error missMsg :=
    buildModules_err_of_mem env.modules [] mod me fn hm ha hne hf hbad
  refine ⟨h1, fun inputs => ?_⟩
  unfold mainModel
  rw [h1]

/-- Witness for C6: a descriptor whose function entry lacks its canonical
name aborts the run before any output exists. -/
theorem claim6_witness :
    build_map envC6 = .error missMsg ∧
    mainModel envC6 [(lit "f", scenarioDecomp, some scenarioWat)]
      = ([], some (.configError missMsg)) := by
  have h := claim6_bad_function_entry envC6 ⟨some (lit "v"), [⟨some (lit "1"), none⟩]⟩
    ⟨some (lit "1"), none⟩ (lit "v") (by decide) rfl (by decide) (by decide) (Or.inr rfl)
  exact ⟨h.1, h.2 _⟩

/-- Claim C7: two descriptor entries whose (module alias, function alias)
pairs concatenate to the same key do not raise an error; the entry
processed later overwrites the earlier one, so the table resolves the key
to the later entry's canonical name. -/
theorem claim7_duplicate_key_last_wins (me1 fe1 n1 me2 fe2 n2 : Str)
    (h1 : me1 ≠ []) (h2 : me2 ≠ []) (hk : me1 ++ fe1 = me2 ++ fe2) :
    build_map ⟨[⟨some me1, [⟨some fe1, some n1⟩]⟩, ⟨some me2, [⟨some fe2, some n2⟩]⟩]⟩
      = .ok [(me2 ++ fe2, n2), (me1 ++ fe1, n1)] ∧
    mapLookup [(me2 ++ fe2, n2), (me1 ++ fe1, n1)] (me1 ++ fe1) = some n2 := by
  constructor
  · simp [build_map, buildModules, addFunctions, if_neg h1, if_neg h2]
  · simp only [mapLookup, if_pos hk.symm]

/-- Witness for C7: the distinct pairs `("v","12")` and `("v1","2")`
collide on key `v12`; the later canonical name wins. -/
theorem claim7_witness :
    build_map ⟨[⟨some (lit "v"), [⟨some (lit "12"), some (lit "a")⟩]⟩,
      ⟨some (lit "v1"), [⟨some (lit "2"), some (lit "b")⟩]⟩]⟩
      = .ok [(lit "v12", lit "b"), (lit "v12", lit "a")] ∧
    mapLookup [(lit "v12", lit "b"), (lit "v12", lit "a")] (lit "v12") = some (lit "b") :=
  claim7_duplicate_key_last_wins (lit "v") (lit "12") (lit "a") (lit "v1") (lit "2") (lit "b")
    (by decide) (by decide) (by decide)

/-- Counterexample to claim C8: the URL `http://github.com/x/blob/y`
matches the claimed pattern (it contains `github.com` and `/blob/`), yet
the rewrite does not replace its host with the raw-content host: only the
`/blob/` segment is dropped, because the host substitution targets the
literal `https://github.com`, which this URL does not contain. -/
theorem claim8_counterexample :
    (occursIn (lit "http://github.com/x/blob/y") (lit "github.com") &&
      occursIn (lit "http://github.com/x/blob/y") (lit "/blob/")) = true ∧
    fetch_json_url (lit "http://github.com/x/blob/y") = lit "http://github.com/x/y" ∧
    occursIn (fetch_json_url (lit "http://github.com/x/blob/y"))
      (lit "raw.githubusercontent.com") = false :=
  ⟨by decide, by decide, by decide⟩

/-- Amended claim C8: a URL that does not contain both `github.com` and
`/blob/` is fetched unchanged; a matching URL undergoes the two literal
substitutions (`https://github.com` to the raw host, `/blob/` to `/`),
which for the standard `https://github.com/...`-form address (such as the
configured `env.json` address) yields the equivalent raw-content address.
A matching URL lacking the literal `https://github.com` only has its
`/blob/` segment removed. -/
theorem claim8_amended :
    (∀ url : Str, (occursIn url (lit "github.com") && occursIn url (lit "/blob/")) = false →
      fetch_json_url url = url) ∧
    fetch_json_url
        (lit "https://github.com/stellar/rs-soroban-env/blob/main/soroban-env-common/env.json")
      = lit "https://raw.githubusercontent.com/stellar/rs-soroban-env/main/soroban-env-common/env.json" := by
  constructor
  · intro url h
    unfold fetch_json_url
    rw [if_neg (by simp [h])]
  · decide

/-- Witness for the amended C8: a non-matching URL passes through
unchanged. -/
theorem claim8_witness :
    fetch_json_url (lit "https://example.com/env.json") = lit "https://example.com/env.json" :=
  claim8_amended.1 (lit "https://example.com/env.json") (by decide)

/-- Claim C9: when the same identifier `x` occupies two positions of the
decompiled import list and the first position's canonical name `n1`
differs from `x` (names and identifiers being space- and paren-free),
the first substitution removes every `" x("` from the in-memory text and
reintroduces none, so the second pair's required-substring check fails
fatally — even though the lists' lengths agree and both keys are in the
table. -/
theorem claim9_duplicate_identifier (m : NameMap) (name d w x a1 b1 a2 b2 n1 : Str)
    (rest : List (Str × Str × Str))
    (hlen : (extract_decomp_imports d).length = (extract_wat_imports w).length)
    (hzip : (extract_decomp_imports d).zip (extract_wat_imports w)
      = (x, a1, b1) :: (x, a2, b2) :: rest)
    (h1 : mapLookup m (a1 ++ b1) = some n1)
    (h2 : (mapLookup m (a2 ++ b2)).isSome = true)
    (hocc : occursIn d (callPat x) = true)
    (hx : ' ' ∉ x) (hxp : '(' ∉ x) (hn : ' ' ∉ n1) (hnp : '(' ∉ n1) (hne : n1 ≠ x) :
    processFile m name d w = .error (.patternNotFound x name) := by
  obtain ⟨n2, hn2⟩ := Option.isSome_iff_exists.mp h2
  have hnof := replaceAll_callPat_no_occ x n1 hx hxp hn hnp hne d
  unfold processFile
  rw [if_pos hlen, hzip]
  simp [goPairs, h1, hn2, hocc, hnof]

/-- Witness for C9: `dup` imported twice; renaming the first occurrence
erases the pattern the second occurrence's check needs. -/
theorem claim9_witness :
    processFile m9 (lit "c") d9 w9 = .error (.patternNotFound (lit "dup") (lit "c")) :=
  claim9_duplicate_identifier m9 (lit "c") d9 w9 (lit "dup") (lit "m") (lit "1")
    (lit "m") (lit "2") (lit "first_name") [] (by decide) (by decide) (by decide) (by decide)
    (by decide) (by decide) (by decide) (by decide) (by decide) (by decide)

/-- Claim C10: empty-string aliases are treated asymmetrically.  A module
whose export alias is the empty string is skipped entirely, like a
missing alias; a function entry whose export alias is the empty string is
accepted without error and contributes the key consisting of the module
alias alone — only a literally absent alias or name triggers the fatal
error. -/
theorem claim10_empty_alias_asymmetry :
    (∀ (acc : NameMap) (fns : List FnEntry) (rest : List ModEntry),
      buildModules acc (⟨some [], fns⟩ :: rest) = buildModules acc rest) ∧
    (∀ (me nm : Str), me ≠ [] →
      build_map ⟨[⟨some me, [⟨some [], some nm⟩]⟩]⟩ = .ok [(me, nm)]) := by
  constructor
  · intro acc fns rest
    simp [buildModules]
  · intro me nm h
    simp [build_map, buildModules, addFunctions, if_neg h]

/-- Witness for C10: a module with empty alias and malformed functions is
skipped; a function with empty alias yields the key `v` alone. -/
theorem claim10_witness :
    buildModules [] [⟨some [], [⟨none, none⟩]⟩] = buildModules [] [] ∧
    build_map ⟨[⟨some (lit "v"), [⟨some [], some (lit "modname")⟩]⟩]⟩
      = .ok [(lit "v", lit "modname")] :=
  ⟨claim10_empty_alias_asymmetry.1 [] [⟨none, none⟩] [],
    claim10_empty_alias_asymmetry.2 (lit "v") (lit "modname") (by decide)⟩

end ContractDecompile
